import Mathlib

/-!
Shallow embedding of the cpput unit-testing harness
(src/TestHarness.hpp, the v0.2.0 header at the repository root, which the
spec designates as the canonical variant; the older src/cpput/TestHarness.hpp
differs only in the points noted in comments below).

The harness drives each registered test against a `ResultWriter`.  We model a
writer call as an `Event`; executing a test (`Test.run`) produces the list of
events it emits, and the concrete writers are folds over event lists, exactly
mirroring the virtual-call sequence of the C++ code.
-/

namespace Cpput

/-- One assertion/fault failure: the (file, line, message) triple passed to
`ResultWriter::failure`. -/
structure FailureRecord where
  filename : String
  line : Nat
  message : String
deriving DecidableEq, Repr

/-- One virtual call made on a `ResultWriter` (the pure-virtual interface at
src/TestHarness.hpp lines 97-106). -/
inductive Event where
  | startTest (className name : String)
  | endTest (success : Bool)
  | failure (rec : FailureRecord)
deriving DecidableEq, Repr

def Event.isStartEvent : Event → Bool
  | .startTest _ _ => true
  | _ => false

def Event.isEndEvent : Event → Bool
  | .endTest _ => true
  | _ => false

def Event.isFailureEvent : Event → Bool
  | .failure _ => true
  | _ => false

/-- The failure records carried by the failure events of a trace, in order. -/
def failureEvents (es : List Event) : List FailureRecord :=
  es.filterMap fun e => match e with | .failure f => some f | _ => none

/-- The (className, name) pairs of the startTest events of a trace, in order. -/
def startEvents (es : List Event) : List (String × String) :=
  es.filterMap fun e => match e with | .startTest c n => some (c, n) | _ => none

/-! ## TextResultWriter (src/TestHarness.hpp lines 110-153)

`output` models everything the writer has inserted into `std::cout` so far. -/

structure TextResultWriter where
  testCount_ : Nat
  failures_ : Nat
  output : String
deriving DecidableEq, Repr

def TextResultWriter.init : TextResultWriter := ⟨0, 0, ""⟩

def TextResultWriter.startTest (w : TextResultWriter) : TextResultWriter :=
  { w with testCount_ := w.testCount_ + 1 }

def TextResultWriter.endTest (w : TextResultWriter) (success : Bool) : TextResultWriter :=
  { w with output := w.output ++ (if success then "." else "F") }

/-- The line written by `TextResultWriter::failure` (line 145). -/
def failureLine (f : FailureRecord) : String :=
  "Failure: " ++ f.filename ++ ", line " ++ toString f.line ++ ": " ++ f.message ++ "\n"

def TextResultWriter.failure (w : TextResultWriter) (f : FailureRecord) : TextResultWriter :=
  { w with failures_ := w.failures_ + 1, output := w.output ++ failureLine f }

def TextResultWriter.getNumberOfFailures (w : TextResultWriter) : Nat := w.failures_

/-- What the destructor (lines 119-127) inserts into `std::cout`. -/
def TextResultWriter.destructorOutput (w : TextResultWriter) : String :=
  if w.failures_ = 0 then "\nAll tests pass.\n"
  else "\n" ++ toString w.failures_ ++ " out of " ++ toString w.testCount_ ++ " tests failed.\n"

def TextResultWriter.applyEvent (w : TextResultWriter) : Event → TextResultWriter
  | .startTest _ _ => w.startTest
  | .endTest s => w.endTest s
  | .failure f => w.failure f

def TextResultWriter.applyEvents (w : TextResultWriter) (es : List Event) : TextResultWriter :=
  es.foldl TextResultWriter.applyEvent w

/-! ## XmlResultWriter (src/TestHarness.hpp lines 157-216)

Its stream output interleaves wall-clock readings (`std::clock`), which are
outside a pure embedding; its failure count, which is all `runAllTests` and
the main macro read back from it, is modelled exactly: `failureCount_` is
incremented once per `failure` call and by nothing else. -/

structure XmlResultWriter where
  failureCount_ : Nat
deriving DecidableEq, Repr

def XmlResultWriter.applyEvent (w : XmlResultWriter) : Event → XmlResultWriter
  | .failure _ => ⟨w.failureCount_ + 1⟩
  | _ => w

def XmlResultWriter.getNumberOfFailures (w : XmlResultWriter) : Nat := w.failureCount_

/-! ## Result (src/TestHarness.hpp lines 220-260)

The scoped object bound to one test execution.  `emitted` is the sequence of
calls it has made on its writer `out_`; the constructor emits `startTest`,
`addFailure` clears `pass_` and emits a failure, the destructor emits
`endTest(pass_)`. -/

structure ResultState where
  pass_ : Bool
  emitted : List Event
deriving DecidableEq, Repr

def Result.create (className name : String) : ResultState :=
  ⟨true, [Event.startTest className name]⟩

def ResultState.addFailure (r : ResultState) (f : FailureRecord) : ResultState :=
  ⟨false, r.emitted ++ [Event.failure f]⟩

/-- Destructor: `out_.endTest(pass_)`; returns the complete emitted trace. -/
def ResultState.destruct (r : ResultState) : List Event :=
  r.emitted ++ [Event.endTest r.pass_]

/-! ## Test bodies and Test::run (src/TestHarness.hpp lines 266-300)

A derived class's `do_run` is arbitrary user code; its observable behaviour
against the `Result` is the ordered list of `addFailure(file,line,message)`
calls it makes, followed by how it exits: normally, or by throwing either a
`std::exception` (carrying its `what()` string) or any other value. -/

inductive Exc where
  | stdExc (what : String)
  | otherExc
deriving DecidableEq, Repr

inductive BodyExit where
  | normal
  | thrown (e : Exc)
deriving DecidableEq, Repr

structure Body where
  calls : List FailureRecord
  exit : BodyExit
deriving DecidableEq, Repr

structure Test where
  test_unit_class_name_ : String
  test_unit_name_ : String
  body : Body
deriving DecidableEq, Repr

/-- `__FILE__` at the catch sites inside `Test::run`: the harness header
itself, not any user test file. -/
def harnessFile : String := "TestHarness.hpp"

/-- `__LINE__` of the `addFailure` call in `catch (const std::exception&)`
(src/TestHarness.hpp line 283). -/
def stdExcCatchLine : Nat := 283

/-- `__LINE__` of the `addFailure` call in `catch (...)`
(src/TestHarness.hpp line 287). -/
def catchAllLine : Nat := 287

/-- The failure record the catch clauses of `Test::run` build from a thrown
value (lines 281-288). -/
def excFailure : Exc → FailureRecord
  | .stdExc w => ⟨harnessFile, stdExcCatchLine, "Unexpected exception: " ++ w⟩
  | .otherExc => ⟨harnessFile, catchAllLine, "Unspecified exception!"⟩

/-- Running `do_run(result)`: the body's `addFailure` calls hit the result in
order (whether it then returns or throws, the calls already made stand). -/
def Body.execCalls (b : Body) (r : ResultState) : ResultState :=
  b.calls.foldl ResultState.addFailure r

/-- `Test::run(out)` (lines 274-289): construct the `Result` (emits
startTest), run the body under the two catch clauses, then the `Result`
destructor fires at scope exit (emits endTest). -/
def Test.run (t : Test) : List Event :=
  let r0 := Result.create t.test_unit_class_name_ t.test_unit_name_
  let r1 := t.body.execCalls r0
  let r2 := match t.body.exit with
    | .normal => r1
    | .thrown e => r1.addFailure (excFailure e)
  r2.destruct

/-- All failure records one execution of the test records, in order: the
body's own calls, then the catch-clause record when the body threw. -/
def Body.allFailures (b : Body) : List FailureRecord :=
  b.calls ++ (match b.exit with | .normal => [] | .thrown e => [excFailure e])

/-! ## Runner (src/TestHarness.hpp lines 349-358)

`runAllTests(writer)` walks the registered chain, calls `run` on each test
against the writer, and returns `writer.getNumberOfFailures()`. -/

/-- The full event trace of a run: each test's trace, in registration order. -/
def runEvents (tests : List Test) : List Event :=
  (tests.map Test.run).flatten

/-- The traversal loop of `runAllTests`, applied to a `TextResultWriter`. -/
def runAllTestsW (w : TextResultWriter) (tests : List Test) : TextResultWriter :=
  tests.foldl (fun acc t => acc.applyEvents t.run) w

/-- `runAllTests` with a fresh `TextResultWriter` (as `CPPUT_TEST_MAIN` does). -/
def runAllTests (tests : List Test) : Nat :=
  (runAllTestsW TextResultWriter.init tests).getNumberOfFailures

/-- `runAllTests` with a fresh `XmlResultWriter`. -/
def runAllTestsXml (tests : List Test) : Nat :=
  ((runEvents tests).foldl XmlResultWriter.applyEvent ⟨0⟩).getNumberOfFailures

/-! ## CPPUT_TEST_MAIN (src/TestHarness.hpp lines 363-371)

`argv` is the full argument vector including the program name, so
`argc == 2` is `argv.length = 2` and `argv[1]` is `argv.getD 1 ""`. -/

inductive WriterKind where
  | text
  | xml
deriving DecidableEq, Repr

/-- Which writer the main macro constructs for a given argument vector. -/
def mainWriterKind (argv : List String) : WriterKind :=
  if argv.length = 2 ∧ argv.getD 1 "" = "--xml" then .xml else .text

/-- The exit status `main` returns: the chosen writer's failure count after
`runAllTests`. -/
def cpputMain (argv : List String) (tests : List Test) : Nat :=
  if argv.length = 2 ∧ argv.getD 1 "" = "--xml" then runAllTestsXml tests
  else runAllTests tests

/-! ## Repository (src/TestHarness.hpp lines 304-345)

The registry is an intrusive singly linked list: each `Test` holds a
`test_unit_next_` pointer, the singleton holds the head pointer `tests_`.
We model the heap of registered nodes by index of registration: node `i`'s
`test_unit_next_` pointer is `nodeNext[i]` (`none` is the null pointer).
`add` follows the C++ verbatim: if the head is null the new node becomes the
head, otherwise walk `test_unit_next_` links to the last node and hang the
new node there.  The walk is given fuel (the node count bounds any acyclic
walk); the invariant proved below shows the fuel is never exhausted. -/

structure Repository where
  nodeNext : List (Option Nat)
  tests_ : Option Nat
deriving DecidableEq, Repr

def Repository.empty : Repository := ⟨[], none⟩

/-- The `while (tmp->test_unit_next_) tmp = tmp->test_unit_next_;` loop:
follow links from `cur` until a null link, returning the last node. -/
def findLast (nodeNext : List (Option Nat)) : Nat → Nat → Nat
  | 0, cur => cur
  | fuel + 1, cur =>
    match nodeNext.getD cur none with
    | none => cur
    | some nxt => findLast nodeNext fuel nxt

/-- `Repository::add(tc)`: the freshly constructed node (id = current node
count, null next pointer) is appended; if the chain was empty it becomes the
head, otherwise the last node's next pointer is set to it. -/
def Repository.add (r : Repository) : Repository :=
  let id := r.nodeNext.length
  match r.tests_ with
  | none => ⟨r.nodeNext ++ [none], some id⟩
  | some h =>
    let t := findLast r.nodeNext r.nodeNext.length h
    ⟨(r.nodeNext ++ [none]).set t (some id), some h⟩

/-- `k` consecutive registrations starting from the empty repository. -/
def Repository.addMany (r : Repository) : Nat → Repository
  | 0 => r
  | k + 1 => (r.addMany k).add

/-- Walk the chain from a node, collecting visited node ids, stopping at a
null link (or when fuel runs out). -/
def chainWalk (nodeNext : List (Option Nat)) : Nat → Option Nat → List Nat
  | 0, _ => []
  | _ + 1, none => []
  | fuel + 1, some c => c :: chainWalk nodeNext fuel (nodeNext.getD c none)

/-- The next-pointer heap after `k` in-order registrations: node `i` points
to node `i + 1`, the last node's pointer is null. -/
def chainOf (k : Nat) : List (Option Nat) :=
  (List.range k).map fun i => if i + 1 = k then none else some (i + 1)

/-! ## Assertion macros (src/TestHarness.hpp lines 412-459)

Each macro expands to `if (badness) { testResult_.addFailure(...); return; }`:
on failure it records exactly one failure and aborts the remainder of the
body.  We model one macro occurrence as the `Option FailureRecord` it would
record, and a straight-line body of assertions as the list of those options,
executed with the early-return semantics by `runChecks`. -/

/-- The message the two-value `Result::addFailure` overload (lines 236-248)
streams: `"failed comparison, expected " << expected << " got " << actual`.
`ToString` stands for `operator<<` on the value (at `setprecision(20)`). -/
def cmpFailureMessage {α β : Type} [ToString α] [ToString β]
    (expected : α) (actual : β) : String :=
  "failed comparison, expected " ++ toString expected ++ " got " ++ toString actual ++ "\n"

/-- `ASSERT_EQ(expected, actual)` (lines 423-430): fails iff
`!(expected == actual)`, recording the two-value comparison message. -/
def assertEqCheck {α : Type} [DecidableEq α] [ToString α]
    (file : String) (line : Nat) (expected actual : α) : Option FailureRecord :=
  if ¬(expected = actual) then some ⟨file, line, cmpFailureMessage expected actual⟩
  else none

/-- `ASSERT_NEAR(expected, actual, epsilon)` (lines 449-459): with
`diff = expected - actual`, fails iff `diff > epsilon || -diff > epsilon`.
The C++ operands are `double`; the embedding uses exact rationals, which the
subtraction and comparisons act on exactly as the code's expressions read. -/
def assertNearCheck (file : String) (line : Nat)
    (expected actual epsilon : ℚ) : Option FailureRecord :=
  let diff := expected - actual
  if diff > epsilon ∨ -diff > epsilon then
    some ⟨file, line, cmpFailureMessage expected actual⟩
  else none

/-- Early-return execution of a straight-line body of assertion macros: run
until the first failing assertion; it is recorded and every statement after
it is skipped. -/
def runChecks : List (Option FailureRecord) → List FailureRecord
  | [] => []
  | none :: rest => runChecks rest
  | some f :: _ => [f]

/-- Substring containment, used to state that a failure message carries a
value's textual representation. -/
def StrContains (s t : String) : Prop :=
  ∃ p q : String, s = p ++ t ++ q

/-! ## The three-unit scenario of spec §8 -/

/-- Three registered units: (G1, pass), (G1, failing at line 42 with message
"boom"), (G2, pass). -/
def scenarioTests : List Test :=
  [⟨"G1", "ok_first", ⟨[], .normal⟩⟩,
   ⟨"G1", "goes_wrong", ⟨[⟨"Test_Foo.cpp", 42, "boom"⟩], .normal⟩⟩,
   ⟨"G2", "ok_last", ⟨[], .normal⟩⟩]

/-- Everything a full text-reporter run writes to `std::cout`: the streamed
output of the run followed by the destructor's summary. -/
def textRunFullOutput (tests : List Test) : String :=
  let w := TextResultWriter.init.applyEvents (runEvents tests)
  w.output ++ w.destructorOutput

/-! ## Basic lemmas about one test's trace -/

theorem foldl_addFailure (fs : List FailureRecord) (r : ResultState) :
    fs.foldl ResultState.addFailure r =
      ⟨r.pass_ && fs.isEmpty, r.emitted ++ fs.map Event.failure⟩ := by
  induction fs generalizing r with
  | nil => cases r; simp
  | cons f fs ih =>
    cases r
    simp [List.foldl_cons, ResultState.addFailure, ih]

/-- The trace of one test execution, in closed form: startTest, the failure
events in order, endTest of the accumulated pass flag. -/
theorem Test.run_eq (t : Test) :
    t.run = Event.startTest t.test_unit_class_name_ t.test_unit_name_ ::
      (t.body.allFailures.map Event.failure ++
        [Event.endTest t.body.allFailures.isEmpty]) := by
  obtain ⟨c, n, calls, ex⟩ := t
  cases ex with
  | normal =>
    simp [Test.run, Body.execCalls, Result.create, foldl_addFailure,
      ResultState.destruct, Body.allFailures]
  | thrown e =>
    simp [Test.run, Body.execCalls, Result.create, foldl_addFailure,
      ResultState.addFailure, ResultState.destruct, Body.allFailures]

theorem failureEvents_append (es fs : List Event) :
    failureEvents (es ++ fs) = failureEvents es ++ failureEvents fs := by
  simp [failureEvents]

theorem startEvents_append (es fs : List Event) :
    startEvents (es ++ fs) = startEvents es ++ startEvents fs := by
  simp [startEvents]

theorem failureEvents_map_failure (l : List FailureRecord) :
    failureEvents (l.map Event.failure) = l := by
  induction l with
  | nil => rfl
  | cons x xs ih => simpa [failureEvents, List.filterMap_cons] using ih

theorem startEvents_map_failure (l : List FailureRecord) :
    startEvents (l.map Event.failure) = [] := by
  induction l with
  | nil => rfl
  | cons x xs ih => simpa [startEvents, List.filterMap_cons] using ih

theorem failureEvents_run (t : Test) :
    failureEvents t.run = t.body.allFailures := by
  rw [Test.run_eq]
  show failureEvents (t.body.allFailures.map Event.failure ++
    [Event.endTest t.body.allFailures.isEmpty]) = t.body.allFailures
  rw [failureEvents_append, failureEvents_map_failure]
  simp [failureEvents]

theorem startEvents_run (t : Test) :
    startEvents t.run = [(t.test_unit_class_name_, t.test_unit_name_)] := by
  rw [Test.run_eq]
  show (t.test_unit_class_name_, t.test_unit_name_) ::
    startEvents (t.body.allFailures.map Event.failure ++
      [Event.endTest t.body.allFailures.isEmpty]) = _
  rw [startEvents_append, startEvents_map_failure]
  rfl

/-! ## Lemmas about the runner's trace and the writers' folds -/

theorem runEvents_cons (t : Test) (ts : List Test) :
    runEvents (t :: ts) = t.run ++ runEvents ts := by
  simp [runEvents]

theorem failureEvents_runEvents (tests : List Test) :
    failureEvents (runEvents tests) =
      (tests.map fun t => t.body.allFailures).flatten := by
  induction tests with
  | nil => simp [runEvents, failureEvents]
  | cons t ts ih => rw [runEvents_cons, failureEvents_append, ih, failureEvents_run]; simp

theorem startEvents_runEvents (tests : List Test) :
    startEvents (runEvents tests) =
      tests.map fun t => (t.test_unit_class_name_, t.test_unit_name_) := by
  induction tests with
  | nil => simp [runEvents, startEvents]
  | cons t ts ih => rw [runEvents_cons, startEvents_append, ih, startEvents_run]; simp

theorem applyEvents_cons (w : TextResultWriter) (e : Event) (es : List Event) :
    w.applyEvents (e :: es) = (w.applyEvent e).applyEvents es := rfl

theorem applyEvents_append (w : TextResultWriter) (es fs : List Event) :
    w.applyEvents (es ++ fs) = (w.applyEvents es).applyEvents fs := by
  simp [TextResultWriter.applyEvents, List.foldl_append]

theorem applyEvents_failures (es : List Event) (w : TextResultWriter) :
    (w.applyEvents es).failures_ = w.failures_ + (failureEvents es).length := by
  induction es generalizing w with
  | nil => simp [TextResultWriter.applyEvents, failureEvents]
  | cons e es ih =>
    rw [applyEvents_cons, ih]
    cases e <;>
      simp [TextResultWriter.applyEvent, TextResultWriter.startTest,
        TextResultWriter.endTest, TextResultWriter.failure, failureEvents] <;>
      omega

theorem applyEvents_testCount (es : List Event) (w : TextResultWriter) :
    (w.applyEvents es).testCount_ = w.testCount_ + (startEvents es).length := by
  induction es generalizing w with
  | nil => simp [TextResultWriter.applyEvents, startEvents]
  | cons e es ih =>
    rw [applyEvents_cons, ih]
    cases e <;>
      simp [TextResultWriter.applyEvent, TextResultWriter.startTest,
        TextResultWriter.endTest, TextResultWriter.failure, startEvents] <;>
      omega

/-- The traversal loop of `runAllTests` is the event fold of the whole run:
the writer passed along the chain sees every test's events in order. -/
theorem runAllTestsW_eq (tests : List Test) (w : TextResultWriter) :
    runAllTestsW w tests = w.applyEvents (runEvents tests) := by
  induction tests generalizing w with
  | nil => simp [runAllTestsW, runEvents, TextResultWriter.applyEvents]
  | cons t ts ih =>
    rw [runEvents_cons, applyEvents_append]
    simpa [runAllTestsW] using ih (w.applyEvents t.run)

theorem xmlFold_count (es : List Event) (c : Nat) :
    (es.foldl XmlResultWriter.applyEvent ⟨c⟩).failureCount_ =
      c + (failureEvents es).length := by
  induction es generalizing c with
  | nil => simp [failureEvents]
  | cons e es ih =>
    cases e <;>
      simp [List.foldl_cons, XmlResultWriter.applyEvent, failureEvents, ih] <;>
      omega

/-- Both concrete writers report the same failure count: the number of
failure events of the run. -/
theorem runAllTests_count (tests : List Test) :
    runAllTests tests = (failureEvents (runEvents tests)).length ∧
    runAllTestsXml tests = (failureEvents (runEvents tests)).length := by
  constructor
  · rw [runAllTests, runAllTestsW_eq, TextResultWriter.getNumberOfFailures,
      applyEvents_failures]
    simp [TextResultWriter.init]
  · rw [runAllTestsXml, XmlResultWriter.getNumberOfFailures, xmlFold_count]
    simp

/-! ## Lemmas about the Repository chain -/

theorem chainOf_length (k : Nat) : (chainOf k).length = k := by
  simp [chainOf]

theorem chainOf_getElem? (m i : Nat) :
    (chainOf m)[i]? =
      if i < m then some (if i + 1 = m then none else some (i + 1)) else none := by
  rw [chainOf, List.getElem?_map]
  by_cases h : i < m
  · rw [List.getElem?_range h]
    simp [h]
  · rw [List.getElem?_eq_none (by simpa using h)]
    simp [h]

theorem chainOf_getD (k i : Nat) :
    (chainOf k).getD i none =
      if i < k then (if i + 1 = k then none else some (i + 1)) else none := by
  rw [List.getD_eq_getElem?_getD, chainOf_getElem?]
  by_cases h : i < k
  · rw [if_pos h, if_pos h]
    rfl
  · rw [if_neg h, if_neg h]
    rfl

/-- The tail-finding loop of `add`, on the chain after `k` registrations:
from any node of the chain, with enough fuel, it reaches node `k - 1`. -/
theorem findLast_chainOf (k : Nat) (fuel cur : Nat) (hc : cur < k)
    (hf : k - 1 - cur ≤ fuel) :
    findLast (chainOf k) fuel cur = k - 1 := by
  induction fuel generalizing cur with
  | zero =>
    simp only [findLast]
    omega
  | succ fuel ih =>
    have hg : (chainOf k).getD cur none =
        if cur + 1 = k then none else some (cur + 1) := by
      rw [chainOf_getD, if_pos hc]
    simp only [findLast]
    rw [hg]
    by_cases h1 : cur + 1 = k
    · rw [if_pos h1]
      show cur = k - 1
      omega
    · rw [if_neg h1]
      show findLast (chainOf k) fuel (cur + 1) = k - 1
      exact ih (cur + 1) (by omega) (by omega)

theorem chainOf_snoc_set (k : Nat) :
    (chainOf (k + 1) ++ [none]).set k (some (k + 1)) = chainOf (k + 2) := by
  have hlen : (chainOf (k + 1)).length = k + 1 := chainOf_length _
  have hL : (chainOf (k + 1) ++ [none]).length = k + 2 := by simp [hlen]
  apply List.ext_getElem?
  intro i
  rw [List.getElem?_set, hL, chainOf_getElem? (k + 2) i]
  rcases lt_trichotomy i k with h | h | h
  · have c1 : ¬(k = i) := by omega
    have c2 : i < k + 1 := by omega
    have c3 : ¬(i + 1 = k + 1) := by omega
    have c4 : i < k + 2 := by omega
    have c5 : ¬(i + 1 = k + 2) := by omega
    rw [if_neg c1, List.getElem?_append_left (by omega),
      chainOf_getElem? (k + 1) i, if_pos c2, if_neg c3, if_pos c4, if_neg c5]
  · subst h
    have c1 : i < i + 2 := by omega
    have c2 : ¬(i + 1 = i + 2) := by omega
    rw [if_pos rfl, if_pos c1, if_pos c1, if_neg c2]
  · have c1 : ¬(k = i) := by omega
    rw [if_neg c1]
    rcases Nat.lt_or_ge i (k + 2) with h2 | h2
    · have hi : i = k + 1 := by omega
      subst hi
      have c2 : k + 1 < k + 2 := by omega
      have c3 : k + 1 + 1 = k + 2 := by omega
      rw [List.getElem?_append_right (by omega), hlen, if_pos c2, if_pos c3]
      simp
    · have c2 : ¬(i < k + 2) := by omega
      rw [if_neg c2, List.getElem?_eq_none (by rw [hL]; omega)]

/-- Closed form of the repository after `k` registrations into the empty
registry: head is node 0 (absent when empty) and the next-pointer heap is
the in-order chain. -/
theorem addMany_closed_form (k : Nat) :
    Repository.empty.addMany k =
      ⟨chainOf k, if k = 0 then none else some 0⟩ := by
  induction k with
  | zero => rfl
  | succ k ih =>
    rw [Repository.addMany, ih]
    cases k with
    | zero => rfl
    | succ k' =>
      have hlen : (chainOf (k' + 1)).length = k' + 1 := chainOf_length _
      have hlast : findLast (chainOf (k' + 1)) (k' + 1) 0 = k' := by
        have := findLast_chainOf (k' + 1) (k' + 1) 0 (by omega) (by omega)
        simpa using this
      rw [if_neg (Nat.succ_ne_zero k'), if_neg (Nat.succ_ne_zero (k' + 1))]
      show Repository.add ⟨chainOf (k' + 1), some 0⟩ = _
      rw [Repository.add]
      simp only [hlen, hlast]
      rw [chainOf_snoc_set k']

/-- Fueled walk from a null pointer is empty, whatever the fuel. -/
theorem chainWalk_none (nodeNext : List (Option Nat)) (fuel : Nat) :
    chainWalk nodeNext fuel none = [] := by
  cases fuel <;> rfl

/-- Walking the in-order chain from node `j` lists the remaining nodes in
order. -/
theorem chainWalk_chainOf (k : Nat) (fuel j : Nat) (hj : j < k)
    (hf : k - j ≤ fuel) :
    chainWalk (chainOf k) fuel (some j) = List.range' j (k - j) := by
  induction fuel generalizing j with
  | zero => exact absurd hj (by omega)
  | succ fuel ih =>
    have hg : (chainOf k).getD j none =
        if j + 1 = k then none else some (j + 1) := by
      rw [chainOf_getD, if_pos hj]
    simp only [chainWalk]
    rw [hg]
    by_cases h1 : j + 1 = k
    · rw [if_pos h1, chainWalk_none]
      have hk : k - j = 1 := by omega
      rw [hk]
      rfl
    · rw [if_neg h1, ih (j + 1) (by omega) (by omega)]
      have hk : k - j = (k - (j + 1)) + 1 := by omega
      rw [hk, List.range'_succ]

theorem countP_map_failure_eq_zero (p : Event → Bool)
    (hp : ∀ f, p (Event.failure f) = false) (l : List FailureRecord) :
    (l.map Event.failure).countP p = 0 := by
  induction l with
  | nil => rfl
  | cons x xs ih => simp [List.countP_cons, hp, ih]

/-! ## The claims -/

/-- Claim C1: a unit whose body raises a fault that is not an assertion
failure records exactly one failure, with a non-empty message, against the
reporter; the unit's trace still closes (the fault does not propagate out of
`Test::run`); and the runner's trace continues with the remaining registered
units. -/
theorem fault_is_contained (t : Test) (e : Exc) (rest : List Test)
    (h : t.body = ⟨[], .thrown e⟩) :
    (failureEvents t.run).length = 1 ∧
    (∀ f ∈ failureEvents t.run, f.message ≠ "") ∧
    t.run.getLast? = some (.endTest false) ∧
    runEvents (t :: rest) = t.run ++ runEvents rest := by
  refine ⟨?_, ?_, ?_, runEvents_cons t rest⟩
  · rw [failureEvents_run, h]
    cases e <;> rfl
  · rw [failureEvents_run, h]
    intro f hf
    have hm : f = excFailure e := by
      cases e <;> simpa [Body.allFailures] using hf
    subst hm
    cases e with
    | stdExc w =>
      intro hcontra
      have hlen := congrArg String.length hcontra
      rw [excFailure, String.length_append] at hlen
      simp at hlen
      exact absurd hlen.1 (by decide)
    | otherExc =>
      intro hcontra
      exact absurd (congrArg String.length hcontra) (by decide)
  · rw [Test.run_eq, h]
    cases e <;> rfl

/-- Witness for C1: a concrete faulting unit, followed by one more unit. -/
theorem fault_is_contained_witness :
    (failureEvents (Test.run ⟨"G", "faults", ⟨[], .thrown .otherExc⟩⟩)).length = 1 ∧
    (∀ f ∈ failureEvents (Test.run ⟨"G", "faults", ⟨[], .thrown .otherExc⟩⟩),
      f.message ≠ "") ∧
    (Test.run ⟨"G", "faults", ⟨[], .thrown .otherExc⟩⟩).getLast? =
      some (.endTest false) ∧
    runEvents [⟨"G", "faults", ⟨[], .thrown .otherExc⟩⟩, ⟨"H", "ok", ⟨[], .normal⟩⟩] =
      Test.run ⟨"G", "faults", ⟨[], .thrown .otherExc⟩⟩ ++
        runEvents [⟨"H", "ok", ⟨[], .normal⟩⟩] :=
  fault_is_contained ⟨"G", "faults", ⟨[], .thrown .otherExc⟩⟩ .otherExc
    [⟨"H", "ok", ⟨[], .normal⟩⟩] rfl

/-- Claim C2: running N registered units produces one startTest (hence one
body invocation) per unit, in registration order, whatever each body does;
and `runAllTests` returns the writer's accumulated failure count — the
number of failure events of the whole run, which sums every unit's
contribution. -/
theorem runner_order_and_count (tests : List Test) :
    startEvents (runEvents tests) =
      tests.map (fun t => (t.test_unit_class_name_, t.test_unit_name_)) ∧
    runAllTests tests = (failureEvents (runEvents tests)).length ∧
    runAllTests tests = (tests.map (fun t => t.body.allFailures.length)).sum := by
  refine ⟨startEvents_runEvents tests, (runAllTests_count tests).1, ?_⟩
  rw [(runAllTests_count tests).1, failureEvents_runEvents, List.length_flatten,
    List.map_map]
  rfl

/-- Claim C3: each unit's trace has exactly one startTest event, which comes
first (before anything the body emits), and exactly one endTest event, which
comes last — also when the body exits via a fault — and its flag is true
exactly when no failure was recorded during the unit. -/
theorem unit_event_protocol (t : Test) :
    t.run.countP Event.isStartEvent = 1 ∧
    t.run.countP Event.isEndEvent = 1 ∧
    t.run.head? = some (.startTest t.test_unit_class_name_ t.test_unit_name_) ∧
    (∃ p : Bool, t.run.getLast? = some (.endTest p) ∧
      (p = true ↔ failureEvents t.run = [])) := by
  have hfe : failureEvents t.run = t.body.allFailures := failureEvents_run t
  refine ⟨?_, ?_, ?_, t.body.allFailures.isEmpty, ?_, ?_⟩
  · rw [Test.run_eq, List.countP_cons, List.countP_append,
      countP_map_failure_eq_zero Event.isStartEvent (fun _ => rfl)]
    rfl
  · rw [Test.run_eq, List.countP_cons, List.countP_append,
      countP_map_failure_eq_zero Event.isEndEvent (fun _ => rfl)]
    rfl
  · rw [Test.run_eq]
    rfl
  · rw [Test.run_eq, ← List.cons_append, List.getLast?_concat]
  · rw [hfe, List.isEmpty_iff]

/-- Claim C4: on the text reporter, `endTest` appends exactly one character
to the stream — `.` on pass, `F` on fail — touching nothing else, and
`failure` increments the failure count and appends the one line
`Failure: <file>, line <line>: <message>`. -/
theorem text_writer_stream (w : TextResultWriter) (s : Bool) (f : FailureRecord) :
    (w.endTest s).output = w.output ++ (if s then "." else "F") ∧
    ((w.endTest s).output).length = w.output.length + 1 ∧
    (w.endTest true).output = w.output ++ "." ∧
    (w.endTest false).output = w.output ++ "F" ∧
    (w.endTest s).failures_ = w.failures_ ∧
    (w.endTest s).testCount_ = w.testCount_ ∧
    (w.failure f).failures_ = w.failures_ + 1 ∧
    (w.failure f).output = w.output ++
      ("Failure: " ++ f.filename ++ ", line " ++ toString f.line ++ ": " ++
        f.message ++ "\n") := by
  refine ⟨rfl, ?_, rfl, rfl, rfl, rfl, rfl, rfl⟩
  cases s <;> (rw [TextResultWriter.endTest]; rw [String.length_append]; rfl)

/-- Claim C5: the text reporter's destructor writes "All tests pass." when
the failure count is zero and "<failures> out of <total> tests failed."
otherwise, where the total counts startTest events; on the three-unit
scenario (pass, fail at line 42 with "boom", pass) the full stream is the
progress characters `.`, `F`, `.` in order — with the one failure line in
between — and the summary "1 out of 3 tests failed.". -/
theorem text_writer_summary (w : TextResultWriter) :
    (w.failures_ = 0 → w.destructorOutput = "\nAll tests pass.\n") ∧
    (w.failures_ ≠ 0 → w.destructorOutput =
      "\n" ++ toString w.failures_ ++ " out of " ++ toString w.testCount_ ++
        " tests failed.\n") ∧
    (∀ tests : List Test,
      (TextResultWriter.init.applyEvents (runEvents tests)).testCount_ =
        (startEvents (runEvents tests)).length) ∧
    textRunFullOutput scenarioTests =
      ".Failure: Test_Foo.cpp, line 42: boom\nF.\n1 out of 3 tests failed.\n" ∧
    StrContains (textRunFullOutput scenarioTests) "1 out of 3 tests failed." := by
  refine ⟨?_, ?_, ?_, ?_, ?_⟩
  · intro h
    rw [TextResultWriter.destructorOutput, if_pos h]
  · intro h
    rw [TextResultWriter.destructorOutput, if_neg h]
  · intro tests
    rw [applyEvents_testCount]
    simp [TextResultWriter.init]
  · rfl
  · exact ⟨".Failure: Test_Foo.cpp, line 42: boom\nF.\n", "\n", rfl⟩

/-- Witness for C5 at two concrete writer states, one with zero failures and
one with a single failure out of three tests. -/
theorem text_writer_summary_witness :
    TextResultWriter.destructorOutput ⟨3, 0, ""⟩ = "\nAll tests pass.\n" ∧
    TextResultWriter.destructorOutput ⟨3, 1, ""⟩ = "\n1 out of 3 tests failed.\n" :=
  ⟨(text_writer_summary ⟨3, 0, ""⟩).1 rfl,
   by rw [(text_writer_summary ⟨3, 1, ""⟩).2.1 (by decide)]; rfl⟩

/-- Claim C6: `CPPUT_TEST_MAIN` constructs the XML writer exactly when the
single argument is the recognized `--xml` flag (the text writer otherwise),
and either way returns the run's failure count, which is zero iff every
registered unit passed. -/
theorem main_entry_contract (argv : List String) (tests : List Test) :
    (mainWriterKind argv = .xml ↔ argv.length = 2 ∧ argv.getD 1 "" = "--xml") ∧
    cpputMain argv tests = (failureEvents (runEvents tests)).length ∧
    (cpputMain argv tests = 0 ↔ ∀ t ∈ tests, t.body.allFailures = []) := by
  have hcount : cpputMain argv tests = (failureEvents (runEvents tests)).length := by
    rw [cpputMain]
    by_cases hc : argv.length = 2 ∧ argv.getD 1 "" = "--xml"
    · rw [if_pos hc]
      exact (runAllTests_count tests).2
    · rw [if_neg hc]
      exact (runAllTests_count tests).1
  refine ⟨?_, hcount, ?_⟩
  · rw [mainWriterKind]
    by_cases hc : argv.length = 2 ∧ argv.getD 1 "" = "--xml"
    · simp [hc]
    · simp [hc]
  · rw [hcount, List.length_eq_zero, failureEvents_runEvents,
      List.flatten_eq_nil_iff]
    simp

/-- Witness for C6: the recognized flag with one passing unit. -/
theorem main_entry_contract_witness :
    (mainWriterKind ["prog", "--xml"] = .xml ↔
      (["prog", "--xml"] : List String).length = 2 ∧
        (["prog", "--xml"] : List String).getD 1 "" = "--xml") ∧
    cpputMain ["prog", "--xml"] [⟨"G", "t", ⟨[], .normal⟩⟩] =
      (failureEvents (runEvents [⟨"G", "t", ⟨[], .normal⟩⟩])).length ∧
    (cpputMain ["prog", "--xml"] [⟨"G", "t", ⟨[], .normal⟩⟩] = 0 ↔
      ∀ t ∈ [(⟨"G", "t", ⟨[], .normal⟩⟩ : Test)], t.body.allFailures = []) :=
  main_entry_contract ["prog", "--xml"] [⟨"G", "t", ⟨[], .normal⟩⟩]

/-- Claim C7: `ASSERT_NEAR(a, b, e)` records nothing — the body continues —
when `|a - b| = e` exactly (non-strict boundary), and when `|a - b| > e` it
records exactly its one failure and aborts the remainder of the body. -/
theorem assert_near_boundary (file : String) (line : Nat) (a b e : ℚ) :
    (|a - b| = e →
      ∀ rest, runChecks (assertNearCheck file line a b e :: rest) =
        runChecks rest) ∧
    (|a - b| > e →
      ∀ rest, runChecks (assertNearCheck file line a b e :: rest) =
        [⟨file, line, cmpFailureMessage a b⟩]) := by
  constructor
  · intro h rest
    have hno : ¬(a - b > e ∨ -(a - b) > e) := by
      simp only [gt_iff_lt]
      rw [← lt_abs, h]
      exact lt_irrefl e
    simp only [assertNearCheck]
    rw [if_neg hno]
    rfl
  · intro h rest
    have hyes : a - b > e ∨ -(a - b) > e := by
      simp only [gt_iff_lt]
      rw [← lt_abs]
      exact h
    simp only [assertNearCheck]
    rw [if_pos hyes]
    rfl

/-- Witness for C7: `|3 - 1| = 2` passes at tolerance 2; `|5 - 1| > 1`
fails at tolerance 1 and returns early past a subsequent assertion. -/
theorem assert_near_boundary_witness :
    runChecks [assertNearCheck "t.cpp" 7 3 1 2, none] = runChecks [none] ∧
    runChecks [assertNearCheck "t.cpp" 7 5 1 1, none] =
      [⟨"t.cpp", 7, cmpFailureMessage (5 : ℚ) (1 : ℚ)⟩] :=
  ⟨(assert_near_boundary "t.cpp" 7 3 1 2).1 (by norm_num) [none],
   (assert_near_boundary "t.cpp" 7 5 1 1).2 (by norm_num) [none]⟩

/-- Claim C8: `ASSERT_EQ(X, X)` records no failure for any value X with
decidable equality, and for `X ≠ Y` it records a failure whose message
contains the textual representations of both X and Y. -/
theorem assert_eq_roundtrip {α : Type} [DecidableEq α] [ToString α]
    (file : String) (line : Nat) (X Y : α) :
    assertEqCheck file line X X = none ∧
    (X ≠ Y →
      assertEqCheck file line X Y =
        some ⟨file, line, cmpFailureMessage X Y⟩ ∧
      StrContains (cmpFailureMessage X Y) (toString X) ∧
      StrContains (cmpFailureMessage X Y) (toString Y)) := by
  refine ⟨?_, fun h => ⟨?_, ?_, ?_⟩⟩
  · rw [assertEqCheck, if_neg (fun hc => hc rfl)]
  · rw [assertEqCheck, if_pos h]
  · refine ⟨"failed comparison, expected ", " got " ++ toString Y ++ "\n", ?_⟩
    rw [cmpFailureMessage]
    simp [String.append_assoc]
  · exact ⟨"failed comparison, expected " ++ toString X ++ " got ", "\n", rfl⟩

/-- Witness for C8 at X = 1, Y = 2 over the natural numbers. -/
theorem assert_eq_roundtrip_witness :
    assertEqCheck "t.cpp" 9 (1 : Nat) 1 = none ∧
    (assertEqCheck "t.cpp" 9 (1 : Nat) 2 =
        some ⟨"t.cpp", 9, cmpFailureMessage (1 : Nat) (2 : Nat)⟩ ∧
      StrContains (cmpFailureMessage (1 : Nat) (2 : Nat)) (toString (1 : Nat)) ∧
      StrContains (cmpFailureMessage (1 : Nat) (2 : Nat)) (toString (2 : Nat))) :=
  ⟨(assert_eq_roundtrip "t.cpp" 9 (1 : Nat) 2).1,
   (assert_eq_roundtrip "t.cpp" 9 (1 : Nat) 2).2 (by decide)⟩

/-- Claim C9: after any number of registrations the chain walked from the
repository's head visits the units in registration order (each `add`
appended at the tail), never repeats a node (acyclic), and every next link
points to the following registration except the last, which is the null
sentinel. -/
theorem registry_chain_invariant (k : Nat) :
    (Repository.empty.addMany k).nodeNext.length = k ∧
    chainWalk (Repository.empty.addMany k).nodeNext
      (Repository.empty.addMany k).nodeNext.length
      (Repository.empty.addMany k).tests_ = List.range k ∧
    (chainWalk (Repository.empty.addMany k).nodeNext
      (Repository.empty.addMany k).nodeNext.length
      (Repository.empty.addMany k).tests_).Nodup ∧
    (∀ i, (Repository.empty.addMany k).nodeNext.getD i none =
      if i + 1 < k then some (i + 1) else none) := by
  have hrepo := addMany_closed_form k
  have hwalk : chainWalk (chainOf k) (chainOf k).length
      (if k = 0 then none else some 0) = List.range k := by
    cases k with
    | zero => rfl
    | succ k' =>
      rw [if_neg (Nat.succ_ne_zero k'), chainOf_length,
        chainWalk_chainOf (k' + 1) (k' + 1) 0 (by omega) (by omega),
        List.range_eq_range']
      norm_num
  refine ⟨?_, ?_, ?_, ?_⟩
  · rw [hrepo]
    exact chainOf_length k
  · rw [hrepo]
    exact hwalk
  · rw [hrepo]
    show (chainWalk (chainOf k) (chainOf k).length
      (if k = 0 then none else some 0)).Nodup
    rw [hwalk]
    exact List.nodup_range k
  · intro i
    rw [hrepo]
    show (chainOf k).getD i none = _
    rw [chainOf_getD]
    by_cases h1 : i < k
    · by_cases h2 : i + 1 = k
      · rw [if_pos h1, if_pos h2, if_neg (by omega)]
      · rw [if_pos h1, if_neg h2, if_pos (by omega)]
    · rw [if_neg h1, if_neg (by omega)]

/-- Claim C10: when a body exits via an unexpected fault, the failure the
harness records carries the harness header's own file and the catch-site
line — not a test-body location — and the message is exactly
"Unexpected exception: " plus the `what()` text for a `std::exception`, and
exactly "Unspecified exception!" for any other thrown value. -/
theorem fault_catch_site (t : Test) (w : String) :
    (t.body.exit = .thrown (.stdExc w) →
      (failureEvents t.run).getLast? =
        some ⟨harnessFile, stdExcCatchLine, "Unexpected exception: " ++ w⟩) ∧
    (t.body.exit = .thrown .otherExc →
      (failureEvents t.run).getLast? =
        some ⟨harnessFile, catchAllLine, "Unspecified exception!"⟩) := by
  constructor
  · intro h
    rw [failureEvents_run, Body.allFailures, h]
    exact List.getLast?_concat _
  · intro h
    rw [failureEvents_run, Body.allFailures, h]
    exact List.getLast?_concat _

/-- Witness for C10: one body throwing a `std::exception` whose description
is "bad cast", one throwing a non-exception value. -/
theorem fault_catch_site_witness :
    (failureEvents (Test.run ⟨"G", "a", ⟨[], .thrown (.stdExc "bad cast")⟩⟩)).getLast? =
      some ⟨harnessFile, stdExcCatchLine, "Unexpected exception: " ++ "bad cast"⟩ ∧
    (failureEvents (Test.run ⟨"G", "b", ⟨[], .thrown .otherExc⟩⟩)).getLast? =
      some ⟨harnessFile, catchAllLine, "Unspecified exception!"⟩ :=
  ⟨(fault_catch_site ⟨"G", "a", ⟨[], .thrown (.stdExc "bad cast")⟩⟩ "bad cast").1 rfl,
   (fault_catch_site ⟨"G", "b", ⟨[], .thrown .otherExc⟩⟩ "x").2 rfl⟩

end Cpput
